import Mathlib

/-!
Shallow embedding of `sphinxcontrib/autojsdoc/__init__.py`.

Doclets read from a jsdoc `structure.json` file are modelled as plain
records; Python dictionaries (`self.names`, `self.longnames`, the module
level structure-file cache) are modelled as insertion-ordered association
lists; Python object identity (the `doclet is last_doclet` test inside
`AutoDirective.merge_doclets`) is modelled by tagging every input record
with its position in the input list, which is faithful because
`json.load` builds a fresh object per record.
-/

namespace Autojsdoc

/-- Association-list lookup: first binding wins, as in a Python dict whose
keys are unique. -/
def alookup {κ α : Type} [DecidableEq κ] : List (κ × α) → κ → Option α
  | [], _ => none
  | (k, v) :: rest, key => if k = key then some v else alookup rest key

/-- Association-list assignment `d[k] = v`: an existing key keeps its
position (Python 3.7 dict semantics), a new key is appended. -/
def aset {κ α : Type} [DecidableEq κ] (l : List (κ × α)) (k : κ) (v : α) :
    List (κ × α) :=
  if l.any (fun p => p.1 = k) then
    l.map (fun p => if p.1 = k then (k, v) else p)
  else
    l ++ [(k, v)]

/-- Characters matched by the `\s` class of `RE_WS` (ASCII whitespace). -/
def isPySpace (c : Char) : Bool :=
  c = ' ' || c = '\t' || c = '\n' || c = '\x0d' || c = '\x0b' || c = '\x0c'

/-- Collapse every run of whitespace to a single space; the `Bool` flag
records whether the previous character was part of a whitespace run. -/
def collapseWS : Bool → List Char → List Char
  | _, [] => []
  | prev, c :: rest =>
    if isPySpace c then
      if prev then collapseWS true rest else ' ' :: collapseWS true rest
    else
      c :: collapseWS false rest

/-- Python `str.strip ()` restricted to ASCII whitespace. -/
def pyStrip (l : List Char) : List Char :=
  ((l.dropWhile isPySpace).reverse.dropWhile isPySpace).reverse

/-- `normalize_space`: replace all runs of whitespace with one space,
after stripping leading and trailing whitespace. -/
def normalize_space (text : String) : String :=
  String.mk (collapseWS false (pyStrip text.toList))

/-- `bs`: replace every backslash with two backslashes, because RST wants
it that way (`link.replace ('\\', '\\\\')`). -/
def bs (link : String) : String :=
  String.mk (link.toList.foldr
    (fun c acc => if c = '\\' then '\\' :: '\\' :: acc else c :: acc) [])

/-- Does `n` occur at the head of `h`? (list prefix test, by hand). -/
def listLeads : List Char → List Char → Bool
  | [], _ => true
  | _ :: _, [] => false
  | a :: as, b :: bs => a = b && listLeads as bs

/-- Does `n` occur somewhere inside `h`?  Models Python `n in h` on
strings. -/
def listHas : List Char → List Char → Bool
  | n, [] => n.isEmpty
  | n, c :: t => listLeads n (c :: t) || listHas n t

/-- Python `needle in hay` for strings. -/
def strHas (needle hay : String) : Bool :=
  listHas needle.toList hay.toList

/-- The `meta` sub-record of a doclet: `{path, filename, lineno}` as used
by `Obj.get_source_line`. -/
structure DocMeta where
  path : String
  filename : String
  lineno : Nat
deriving Repr, DecidableEq

/-- A doclet record, with the attributes that `Obj.__init__` defaults and
`merge_doclets` / `make_forest` / the render pass read.  Variant-specific
attributes of the Python subclasses are flattened into one record with
their subclass defaults. -/
structure Doclet where
  kind : String
  name : String
  longname : String
  memberof : Option String
  description : String
  comment : String
  undocumented : Bool
  meta : Option DocMeta
deriving Repr, DecidableEq

/-- Python `os.path.join (path, filename)` for the two-argument case used
in `get_source_line`. -/
def pathJoin (path filename : String) : String :=
  if strHas "/" (String.mk (filename.toList.take 1)) then filename
  else if path = "" then filename
  else path ++ "/" ++ filename

/-- `Obj.get_source_line` for a doclet whose `parent` is `None` — the only
case exercised by `make_forest`'s error path, where the doclet failed to
link and hence never received a parent. -/
def get_source_line (d : Doclet) : String × Nat :=
  match d.meta with
  | some m => (pathJoin m.path m.filename, m.lineno)
  | none => ("<unknown>", 0)

/-- `AutoDirective.xref_table`: JSDoc `@kind` to sphinx js role.  A kind
absent from the table makes `self.xref_table[kind]` raise `KeyError`. -/
def xref_table (kind : String) : Option String :=
  if kind = "class" then some "js:class"
  else if kind = "constant" then some "js:data"
  else if kind = "function" then some "js:func"
  else if kind = "member" then some "js:attr"
  else if kind = "method" then some "js:meth"
  else if kind = "module" then some "js:mod"
  else none

/-- `AutoDirective.xref`: look the name up in `self.longnames`, else in
`self.names`; when a truthy kind was found emit a role, where a kind with
no entry in `xref_table` raises `KeyError` (modelled as `none`); otherwise
return the name unchanged. -/
def xref (longnames names : List (String × Doclet)) (nm : String) :
    Option String :=
  let kind : Option String :=
    match alookup longnames nm with
    | some d => some d.kind
    | none =>
      match alookup names nm with
      | some d => some d.kind
      | none => none
  match kind with
  | some k =>
    if k = "" then some nm
    else
      match xref_table k with
      | some role => some (":" ++ role ++ ":`" ++ nm ++ "`")
      | none => none
  | none => some nm

/-- A parameter sub-record as consumed by `JSArgument`: `name`,
`description` and `type.names` (defaulted to `[]` by `JSWithTypes`). -/
structure Param where
  name : String
  description : String
  typeNames : List String
deriving Repr, DecidableEq

/-- `JSWithTypes.get_types`: pipe-join the type names and pass the result
through `bs`. -/
def get_types (typeNames : List String) : String :=
  bs (String.intercalate "|" typeNames)

/-- The one content line appended by `JSArgument.run`:
`":param %s %s: %s" % (self.get_types (), name, self.get_description ())`. -/
def JSArgument_run (p : Param) : String :=
  ":param " ++ get_types p.typeNames ++ " " ++ p.name ++ ": "
    ++ normalize_space p.description

/-- The one content line appended by `JSSee.run`: a link containing
`"://"` is used verbatim, any other link goes through `xref` first (whose
`KeyError` propagates as `none`). -/
def JSSee_run (longnames names : List (String × Doclet))
    (link description : String) : Option String :=
  let resolved : Option String :=
    if strHas "://" link then some link else xref longnames names link
  match resolved with
  | some l => some ("See: " ++ l ++ " " ++ normalize_space description)
  | none => none

/-- The pieces of `AutoDirective` state touched by `merge_doclets`: the
`merged` list (records tagged with their input position, which models
Python object identity) and the instance dicts `self.names` and
`self.longnames`, mapping to positions. -/
structure MergeState where
  merged : List (Nat × Doclet)
  selfNames : List (String × Nat)
  selfLongnames : List (String × Nat)
deriving Repr, DecidableEq

/-- Folding a later record `d` into the kept doclet `last` with the same
longname: AND the `undocumented` flags, concatenate `comment` and
`description`, and overwrite `meta` with the later record's (the
compiler's view). -/
def fold_doclet (last d : Doclet) : Doclet :=
  { last with
      undocumented := last.undocumented && d.undocumented
      comment := last.comment ++ d.comment
      description := last.description ++ d.description
      meta := d.meta }

/-- One iteration of the `merge_doclets` loop on the record at input
position `i`: `self.longnames.setdefault (doclet.longname, doclet)`
followed by the `doclet is last_doclet` test.  `check_params` only logs
warnings and returns its argument, so it is the identity here. -/
def mergeStep (st : MergeState) (i : Nat) (d : Doclet) : MergeState :=
  match alookup st.selfLongnames d.longname with
  | none =>
    { merged := st.merged ++ [(i, d)]
      selfNames := aset st.selfNames d.name i
      selfLongnames := st.selfLongnames ++ [(d.longname, i)] }
  | some j =>
    { st with
        merged := st.merged.map
          (fun p => if p.1 = j then (j, fold_doclet p.2 d) else p) }

/-- The `merge_doclets` loop, threading the next input position. -/
def merge_run : Nat → MergeState → List Doclet → MergeState
  | _, st, [] => st
  | i, st, d :: rest => merge_run (i + 1) (mergeStep st i d) rest

/-- The whole merge pass, starting from the empty state `run` installs
(`self.names = {}`, `self.longnames = {}`). -/
def merge_pass (ds : List Doclet) : MergeState :=
  merge_run 0 ⟨[], [], []⟩ ds

/-- Position (counting from `i`) of the first record in the list whose
longname is `l`. -/
def firstIdxFrom : Nat → List Doclet → String → Option Nat
  | _, [], _ => none
  | i, d :: rest, l =>
    if d.longname = l then some i else firstIdxFrom (i + 1) rest l

/-- The two error messages `make_forest` can log for an unlinkable
doclet, keyed by the offending doclet's longname and `memberof`. -/
inductive ErrMsg : Type
  | couldNotLinkAnonymous (longname memberof : String)
  | couldNotLink (longname memberof : String)
deriving Repr, DecidableEq

/-- The longname of the doclet an error message was reported for. -/
def errLongname : ErrMsg → String
  | .couldNotLinkAnonymous l _ => l
  | .couldNotLink l _ => l

/-- Link state built by `make_forest`: `o.parent` assignments (child
position to parent position, present only when the parent resolved),
`parent.children.append (o)` calls, and the logged errors tagged with the
reporter's `get_source_line`. -/
structure LinkState where
  parentOf : List (Nat × Nat)
  childrenOf : List (Nat × List Nat)
  errors : List ((String × Nat) × ErrMsg)
deriving Repr, DecidableEq

/-- Append one child to a parent's `children` list. -/
def addChild (l : List (Nat × List Nat)) (pid i : Nat) :
    List (Nat × List Nat) :=
  match alookup l pid with
  | some cs => aset l pid (cs ++ [i])
  | none => l ++ [(pid, [i])]

/-- The error record (if any) that the `make_forest` iteration for doclet
`o` logs, given the longname index. -/
def stepError (ln : List (String × Nat)) (o : Doclet) :
    Option ((String × Nat) × ErrMsg) :=
  match o.memberof with
  | none => none
  | some m =>
    match alookup ln m with
    | some _ => none
    | none =>
      if o.undocumented then none
      else
        some (get_source_line o,
          if m = "<anonymous>" then ErrMsg.couldNotLinkAnonymous o.longname m
          else ErrMsg.couldNotLink o.longname m)

/-- One iteration of the `make_forest` loop for the doclet `o` at merged
position `i`. -/
def linkStep (ln : List (String × Nat)) (st : LinkState) (i : Nat)
    (o : Doclet) : LinkState :=
  match o.memberof with
  | none => st
  | some m =>
    match alookup ln m with
    | some pid =>
      { st with
          parentOf := st.parentOf ++ [(i, pid)]
          childrenOf := addChild st.childrenOf pid i }
    | none =>
      if o.undocumented then st
      else
        { st with
            errors := st.errors ++
              [(get_source_line o,
                if m = "<anonymous>" then
                  ErrMsg.couldNotLinkAnonymous o.longname m
                else ErrMsg.couldNotLink o.longname m)] }

/-- `AutoDirective.make_forest` over the merged list. -/
def make_forest (ln : List (String × Nat)) :
    List (Nat × Doclet) → LinkState → LinkState
  | [], st => st
  | (i, o) :: rest, st => make_forest ln rest (linkStep ln st i o)

/-- The triple `merged, names, longnames` that `merge_doclets` returns:
the local dicts `names` and `longnames` are created empty and never
written, so the returned second and third components are always empty. -/
structure Triple where
  doclets : List Doclet
  names : List (String × Nat)
  longnames : List (String × Nat)
deriving Repr, DecidableEq

/-- `AutoDirective.merge_doclets`: run the merge loop, link the merged
doclets with `make_forest`, and return the triple of the merged list and
the two never-written local dicts, alongside the instance state and the
link state the pass produced. -/
def merge_doclets (ds : List Doclet) : Triple × MergeState × LinkState :=
  let st := merge_pass ds
  let ls := make_forest st.selfLongnames st.merged ⟨[], [], []⟩
  (⟨st.merged.map (fun p => p.2), [], []⟩, st, ls)

/-- The module-level `loaded_structure_files` dict plus a count of the
`open (structure_json, 'r')` file reads performed. -/
structure CacheState where
  cache : List (String × Triple)
  readCount : Nat
deriving Repr, DecidableEq

/-- The caching block of `AutoDirective.run`: on a miss, read and parse
the file (modelled by `files`), merge, and store; on a hit, return the
stored triple untouched. -/
def load_structure (files : String → List Doclet) (path : String)
    (cs : CacheState) : Triple × CacheState :=
  match alookup cs.cache path with
  | some t => (t, cs)
  | none =>
    let t := (merge_doclets (files path)).1
    (t, ⟨cs.cache ++ [(path, t)], cs.readCount + 1⟩)

/-- The directive attributes after
`self.doclets, self.names, self.longnames = loaded_structure_files[...]`. -/
structure Directive where
  doclets : List Doclet
  names : List (String × Nat)
  longnames : List (String × Nat)
deriving Repr, DecidableEq

/-- Load (or fetch from cache) a structure file and install the triple on
the directive, as `AutoDirective.run` does. -/
def run_load (files : String → List Doclet) (path : String)
    (cs : CacheState) : Directive × CacheState :=
  let r := load_structure files path cs
  (⟨r.1.doclets, r.1.names, r.1.longnames⟩, r.2)

/-- Lexicographic `≤` on character lists, as Python compares strings. -/
def charListLe : List Char → List Char → Bool
  | [], _ => true
  | _ :: _, [] => false
  | a :: as, b :: bs => if a = b then charListLe as bs else decide (a < b)

/-- Python string `<=` (lexicographic on code points). -/
def strLe (a b : String) : Bool :=
  charListLe a.toList b.toList

/-- Stable insertion into a list sorted by `longname`; together with
`sortByLongname` this models
`sorted (doclets, key = operator.attrgetter ('longname'))`. -/
def insertByLongname (d : Doclet) : List Doclet → List Doclet
  | [] => [d]
  | e :: rest =>
    if strLe d.longname e.longname then d :: e :: rest
    else e :: insertByLongname d rest

/-- Sort doclets by longname (stable, lexicographic). -/
def sortByLongname : List Doclet → List Doclet
  | [] => []
  | d :: rest => insertByLongname d (sortByLongname rest)

/-- The per-invocation selection state of `AutoDirective.run`: the
`visited` set of longnames already output, and the sequence of doclet
longnames rendered so far (abstracting the `d.run (self, 0)` calls). -/
structure RunState where
  visited : List String
  emitted : List String
deriving Repr, DecidableEq

/-- The `for d in sorted (doclets, ...)` loop: mark visited and render. -/
def emitLoop (st : RunState) (ds : List Doclet) : RunState :=
  ds.foldl
    (fun s d => ⟨s.visited ++ [d.longname], s.emitted ++ [d.longname]⟩) st

/-- One pattern argument of `AutoDirective.run`: grep the doclet list by
kind, pattern match on the longname and the visited set — the generator is
fully consumed by `sorted` before the render loop starts, so the visited
set seen by the filter is the one from previous arguments — then render in
longname order.  The regex `rex.search` is modelled by the predicate
`pat`. -/
def runPattern (doclets : List Doclet) (objtype : String) (st : RunState)
    (pat : String → Bool) : RunState :=
  emitLoop st (sortByLongname (doclets.filter
    (fun d => d.kind == objtype && pat d.longname
      && !(st.visited.contains d.longname))))

/-- The whole argument loop of `AutoDirective.run`, starting from an empty
visited set. -/
def run_patterns (doclets : List Doclet) (objtype : String)
    (pats : List (String → Bool)) : RunState :=
  pats.foldl (runPattern doclets objtype) ⟨[], []⟩

theorem alookup_append {κ α : Type} [DecidableEq κ] (l1 l2 : List (κ × α))
    (k : κ) :
    alookup (l1 ++ l2) k =
      match alookup l1 k with
      | some v => some v
      | none => alookup l2 k := by
  induction l1 with
  | nil => rfl
  | cons p rest ih =>
    by_cases h : p.1 = k <;> simp [alookup, h, ih]

theorem alookup_eq_none {κ α : Type} [DecidableEq κ] (l : List (κ × α))
    (k : κ) :
    alookup l k = none ↔ k ∉ l.map Prod.fst := by
  induction l with
  | nil => simp [alookup]
  | cons p rest ih =>
    by_cases h : p.1 = k
    · simp [alookup, h]
    · rw [show alookup (p :: rest) k = alookup rest k by simp [alookup, h]]
      rw [ih]
      constructor
      · intro hk
        simp only [List.map_cons, List.mem_cons]
        rintro (hkp | hmem)
        · exact h hkp.symm
        · exact hk hmem
      · intro hk hmem
        exact hk (by simp [List.map_cons, List.mem_cons, hmem])

theorem merge_run_keys_nodup :
    ∀ (ds : List Doclet) (i : Nat) (st : MergeState),
    (st.selfLongnames.map Prod.fst).Nodup →
    ((merge_run i st ds).selfLongnames.map Prod.fst).Nodup := by
  intro ds
  induction ds with
  | nil => intro i st h; exact h
  | cons d rest ih =>
    intro i st h
    apply ih
    cases hl : alookup st.selfLongnames d.longname with
    | some j => simpa [mergeStep, hl] using h
    | none =>
      have hd : d.longname ∉ st.selfLongnames.map Prod.fst :=
        (alookup_eq_none _ _).mp hl
      simp [mergeStep, hl, List.nodup_append, h, hd]

theorem merge_run_lookup :
    ∀ (ds : List Doclet) (i : Nat) (st : MergeState) (l : String),
    alookup (merge_run i st ds).selfLongnames l =
      match alookup st.selfLongnames l with
      | some j => some j
      | none => firstIdxFrom i ds l := by
  intro ds
  induction ds with
  | nil =>
    intro i st l
    simp only [merge_run]
    cases alookup st.selfLongnames l <;> rfl
  | cons d rest ih =>
    intro i st l
    show alookup (merge_run (i + 1) (mergeStep st i d) rest).selfLongnames l = _
    rw [ih]
    cases hl : alookup st.selfLongnames d.longname with
    | some j =>
      by_cases he : d.longname = l
      · subst he
        simp [mergeStep, hl, firstIdxFrom]
      · simp only [mergeStep, hl, firstIdxFrom, he, if_false]
    | none =>
      by_cases he : d.longname = l
      · subst he
        simp [mergeStep, hl, alookup_append, alookup, firstIdxFrom]
      · simp only [mergeStep, hl, alookup_append, alookup, firstIdxFrom, he,
          if_false]
        cases alookup st.selfLongnames l <;> simp [firstIdxFrom, he]

theorem merge_run_mergedKeys :
    ∀ (ds : List Doclet) (i : Nat) (st : MergeState),
    st.merged.map (fun p => (p.2.longname, p.1)) = st.selfLongnames →
    (merge_run i st ds).merged.map (fun p => (p.2.longname, p.1)) =
      (merge_run i st ds).selfLongnames := by
  intro ds
  induction ds with
  | nil => intro i st h; exact h
  | cons d rest ih =>
    intro i st h
    apply ih
    cases hl : alookup st.selfLongnames d.longname with
    | some j =>
      simp only [mergeStep, hl, List.map_map]
      rw [← h]
      apply List.map_congr_left
      intro p _
      by_cases hp : p.1 = j <;> simp [fold_doclet, hp]
    | none =>
      simp [mergeStep, hl, h]

theorem merge_run_pos :
    ∀ (ds : List Doclet) (i : Nat) (st : MergeState),
    (∀ p ∈ st.merged, p.1 < i) → (st.merged.map Prod.fst).Nodup →
    (∀ p ∈ (merge_run i st ds).merged, p.1 < i + ds.length) ∧
      ((merge_run i st ds).merged.map Prod.fst).Nodup := by
  intro ds
  induction ds with
  | nil =>
    intro i st hb hn
    exact ⟨fun p hp => by simpa using hb p hp, hn⟩
  | cons d rest ih =>
    intro i st hb hn
    have step : (∀ p ∈ (mergeStep st i d).merged, p.1 < i + 1) ∧
        ((mergeStep st i d).merged.map Prod.fst).Nodup := by
      cases hl : alookup st.selfLongnames d.longname with
      | some j =>
        constructor
        · intro p hp
          simp only [mergeStep, hl, List.mem_map] at hp
          obtain ⟨q, hq, hpq⟩ := hp
          subst hpq
          have hqlt := hb q hq
          by_cases h : q.1 = j <;> simp [h] <;> omega
        · have : ((mergeStep st i d).merged.map Prod.fst) =
              st.merged.map Prod.fst := by
            simp only [mergeStep, hl, List.map_map]
            apply List.map_congr_left
            intro p _
            by_cases h : p.1 = j <;> simp [h]
          rw [this]; exact hn
      | none =>
        constructor
        · intro p hp
          simp only [mergeStep, hl, List.mem_append, List.mem_singleton] at hp
          rcases hp with hp | hp
          · have := hb p hp; omega
          · simp [hp]
        · have hdisj : (i : Nat) ∉ st.merged.map Prod.fst := by
            intro hmem
            obtain ⟨p, hp, hpe⟩ := List.mem_map.mp hmem
            have := hb p hp; omega
          simp [mergeStep, hl, List.nodup_append, hn, hdisj]
    have := ih (i + 1) (mergeStep st i d) step.1 step.2
    refine ⟨fun p hp => ?_, this.2⟩
    have := this.1 p hp
    simp only [List.length_cons]
    omega

/-- C1: after the merge pass, each longname appears at most once as a key
in the longname index (`self.longnames`); the index maps every longname to
the input position of the first record seen with it; and the kept merged
doclets correspond one to one with the index entries (same longnames, same
positions), so no second doclet with an already-seen longname is ever
created. -/
theorem C1_merge_longname_unique (ds : List Doclet) :
    ((merge_pass ds).selfLongnames.map Prod.fst).Nodup
    ∧ (∀ l, alookup (merge_pass ds).selfLongnames l = firstIdxFrom 0 ds l)
    ∧ (merge_pass ds).merged.map (fun p => (p.2.longname, p.1)) =
        (merge_pass ds).selfLongnames
    ∧ ((merge_pass ds).merged.map (fun p => p.2.longname)).Nodup := by
  have hmp : merge_pass ds = merge_run 0 ⟨[], [], []⟩ ds := rfl
  have h1 := merge_run_keys_nodup ds 0 ⟨[], [], []⟩ (by simp)
  have h2 := fun l => merge_run_lookup ds 0 ⟨[], [], []⟩ l
  have h3 := merge_run_mergedKeys ds 0 ⟨[], [], []⟩ (by simp)
  rw [hmp]
  refine ⟨h1, fun l => ?_, h3, ?_⟩
  · rw [h2 l]; rfl
  · have he : ((merge_run 0 ⟨[], [], []⟩ ds).merged.map
        (fun p => p.2.longname)) =
        ((merge_run 0 ⟨[], [], []⟩ ds).merged.map
          (fun p => (p.2.longname, p.1))).map Prod.fst := by
      simp [List.map_map]
    rw [he, h3]
    exact h1

/-- C2: merging a pair of records that share a longname yields one merged
doclet whose `undocumented` flag is the AND of the two records' flags
(`last_doclet.undocumented &= doclet.undocumented`). -/
theorem C2_merge_undocumented_and (d1 d2 : Doclet)
    (h : d1.longname = d2.longname) :
    (merge_pass [d1, d2]).merged.map (fun p => p.2.undocumented) =
      [d1.undocumented && d2.undocumented] := by
  simp [merge_pass, merge_run, mergeStep, alookup, h, fold_doclet]

/-- An undocumented record and a documented record with the same longname. -/
def exDocletUndoc : Doclet :=
  ⟨"function", "f", "m.f", none, "", "c1", true, none⟩

/-- The documented counterpart of `exDocletUndoc`. -/
def exDocletDoc : Doclet :=
  ⟨"function", "f", "m.f", none, "doc", "c2", false,
    some ⟨"src", "f.js", 7⟩⟩

theorem C2_merge_undocumented_and_witness :
    exDocletUndoc.longname = exDocletDoc.longname
    ∧ (merge_pass [exDocletUndoc, exDocletDoc]).merged.map
        (fun p => p.2.undocumented) = [false] :=
  ⟨rfl, by
    have h := C2_merge_undocumented_and exDocletUndoc exDocletDoc rfl
    simpa using h⟩

theorem linkStep_errors (ln : List (String × Nat)) (st : LinkState)
    (i : Nat) (o : Doclet) :
    (linkStep ln st i o).errors = st.errors ++ (stepError ln o).toList := by
  cases hm : o.memberof with
  | none => simp [linkStep, stepError, hm]
  | some m =>
    cases hln : alookup ln m with
    | some pid => simp [linkStep, stepError, hm, hln]
    | none =>
      cases hu : o.undocumented <;> simp [linkStep, stepError, hm, hln, hu]

theorem make_forest_append (ln : List (String × Nat)) :
    ∀ (ms1 ms2 : List (Nat × Doclet)) (st : LinkState),
    make_forest ln (ms1 ++ ms2) st = make_forest ln ms2 (make_forest ln ms1 st) := by
  intro ms1
  induction ms1 with
  | nil => intro ms2 st; rfl
  | cons p rest ih =>
    intro ms2 st
    cases p with
    | mk i o => simp [make_forest, ih]

theorem make_forest_errors (ln : List (String × Nat)) :
    ∀ (ms : List (Nat × Doclet)) (st : LinkState),
    (make_forest ln ms st).errors =
      st.errors ++ ms.filterMap (fun p => stepError ln p.2) := by
  intro ms
  induction ms with
  | nil => intro st; simp [make_forest]
  | cons p rest ih =>
    intro st
    cases p with
    | mk i o =>
      rw [show make_forest ln ((i, o) :: rest) st =
        make_forest ln rest (linkStep ln st i o) from rfl]
      rw [ih, linkStep_errors]
      cases h : stepError ln o <;> simp [List.filterMap_cons, h]

theorem linkStep_parent_other (ln : List (String × Nat)) (st : LinkState)
    (i : Nat) (o : Doclet) (k : Nat) (hk : i ≠ k) :
    alookup (linkStep ln st i o).parentOf k = alookup st.parentOf k := by
  cases hm : o.memberof with
  | none => simp [linkStep, hm]
  | some m =>
    cases hln : alookup ln m with
    | some pid =>
      simp only [linkStep, hm, hln]
      rw [alookup_append]
      cases hst : alookup st.parentOf k <;> simp [alookup, hk]
    | none => cases hu : o.undocumented <;> simp [linkStep, hm, hln, hu]

theorem make_forest_parent_other (ln : List (String × Nat)) :
    ∀ (ms : List (Nat × Doclet)) (st : LinkState) (k : Nat),
    (∀ p ∈ ms, p.1 ≠ k) →
    alookup (make_forest ln ms st).parentOf k = alookup st.parentOf k := by
  intro ms
  induction ms with
  | nil => intro st k _; rfl
  | cons p rest ih =>
    intro st k hk
    cases p with
    | mk i o =>
      rw [show make_forest ln ((i, o) :: rest) st =
        make_forest ln rest (linkStep ln st i o) from rfl]
      rw [ih _ k (fun q hq => hk q (List.mem_cons_of_mem _ hq))]
      exact linkStep_parent_other ln st i o k (hk (i, o) (List.mem_cons_self _ _))

theorem linkStep_parent_unresolved (ln : List (String × Nat))
    (st : LinkState) (i : Nat) (o : Doclet) (m : String)
    (hmo : o.memberof = some m) (hln : alookup ln m = none) :
    (linkStep ln st i o).parentOf = st.parentOf := by
  cases hu : o.undocumented <;> simp [linkStep, hmo, hln, hu]

theorem stepError_longname (ln : List (String × Nat)) (d : Doclet)
    (e : (String × Nat) × ErrMsg) (he : stepError ln d = some e) :
    errLongname e.2 = d.longname := by
  unfold stepError at he
  split at he
  · cases he
  · split at he
    · cases he
    · split at he
      · cases he
      · rw [← Option.some_inj.mp he]
        split <;> rfl

theorem stepError_unresolved (ln : List (String × Nat)) (o : Doclet)
    (m : String) (hmo : o.memberof = some m) (hln : alookup ln m = none)
    (hu : o.undocumented = false) :
    stepError ln o =
      some (get_source_line o,
        if m = "<anonymous>" then ErrMsg.couldNotLinkAnonymous o.longname m
        else ErrMsg.couldNotLink o.longname m) := by
  simp [stepError, hmo, hln, hu]

theorem stepError_undoc (ln : List (String × Nat)) (o : Doclet)
    (m : String) (hmo : o.memberof = some m) (hln : alookup ln m = none)
    (hu : o.undocumented = true) :
    stepError ln o = none := by
  simp [stepError, hmo, hln, hu]

theorem merge_pass_pos_nodup (ds : List Doclet) :
    ((merge_pass ds).merged.map Prod.fst).Nodup :=
  (merge_run_pos ds 0 ⟨[], [], []⟩ (by simp) (by simp)).2

theorem merge_pass_longnames_nodup (ds : List Doclet) :
    ((merge_pass ds).merged.map (fun p => p.2.longname)).Nodup := by
  have hmp : merge_pass ds = merge_run 0 ⟨[], [], []⟩ ds := rfl
  have h1 := merge_run_keys_nodup ds 0 ⟨[], [], []⟩ (by simp)
  have h3 := merge_run_mergedKeys ds 0 ⟨[], [], []⟩ (by simp)
  rw [hmp]
  have he : ((merge_run 0 ⟨[], [], []⟩ ds).merged.map
      (fun p => p.2.longname)) =
      ((merge_run 0 ⟨[], [], []⟩ ds).merged.map
        (fun p => (p.2.longname, p.1))).map Prod.fst := by
    simp [List.map_map]
  rw [he, h3]
  exact h1

/-- C3: a merged doclet whose `memberof` is not a key of the longname
index is left a root by the link pass (no `parent` assignment), stays in
the merged list returned by `merge_doclets`, and produces exactly one
error record — tagged with its own resolved source location and carrying
the `@alias` advice exactly when the target is `<anonymous>` — unless the
doclet is undocumented, in which case it produces no error record. -/
theorem C3_unresolved_memberof (ds : List Doclet) (i : Nat) (o : Doclet)
    (m : String)
    (hmem : (i, o) ∈ (merge_pass ds).merged)
    (hmo : o.memberof = some m)
    (hnone : alookup (merge_pass ds).selfLongnames m = none) :
    alookup (merge_doclets ds).2.2.parentOf i = none
    ∧ o ∈ (merge_doclets ds).1.doclets
    ∧ (o.undocumented = false →
        (merge_doclets ds).2.2.errors.filter
            (fun e => errLongname e.2 == o.longname) =
          [(get_source_line o,
            if m = "<anonymous>" then
              ErrMsg.couldNotLinkAnonymous o.longname m
            else ErrMsg.couldNotLink o.longname m)])
    ∧ (o.undocumented = true →
        (merge_doclets ds).2.2.errors.filter
            (fun e => errLongname e.2 == o.longname) = []) := by
  have hls : (merge_doclets ds).2.2 =
      make_forest (merge_pass ds).selfLongnames (merge_pass ds).merged
        ⟨[], [], []⟩ := rfl
  have hdoc : (merge_doclets ds).1.doclets =
      (merge_pass ds).merged.map (fun p => p.2) := rfl
  have hpos := merge_pass_pos_nodup ds
  have hlnn := merge_pass_longnames_nodup ds
  obtain ⟨pre, post, hsplit⟩ := List.append_of_mem hmem
  have hsp := hpos
  rw [hsplit, List.map_append, List.map_cons] at hsp
  have hdisj := List.disjoint_of_nodup_append hsp
  have hpostn : (i : Nat) ∉ post.map Prod.fst :=
    (List.nodup_cons.mp hsp.of_append_right).1
  have hprene : ∀ p ∈ pre, p.1 ≠ i := by
    intro p hp he
    exact hdisj (List.mem_map_of_mem _ hp)
      (by rw [he]; exact List.mem_cons_self _ _)
  have hpostne : ∀ p ∈ post, p.1 ≠ i := by
    intro p hp he
    exact hpostn (he ▸ List.mem_map_of_mem _ hp)
  have hlsp := hlnn
  rw [hsplit, List.map_append, List.map_cons] at hlsp
  have hldisj := List.disjoint_of_nodup_append hlsp
  have hlpostn : o.longname ∉ post.map (fun p => p.2.longname) :=
    (List.nodup_cons.mp hlsp.of_append_right).1
  have hprelne : ∀ p ∈ pre, p.2.longname ≠ o.longname := by
    intro p hp he
    exact hldisj (List.mem_map_of_mem _ hp)
      (by rw [he]; exact List.mem_cons_self _ _)
  have hpostlne : ∀ p ∈ post, p.2.longname ≠ o.longname := by
    intro p hp he
    exact hlpostn (he ▸ List.mem_map_of_mem _ hp)
  have herr : (merge_doclets ds).2.2.errors =
      (pre.filterMap (fun p => stepError (merge_pass ds).selfLongnames p.2))
        ++ ((stepError (merge_pass ds).selfLongnames o).toList
          ++ post.filterMap
              (fun p => stepError (merge_pass ds).selfLongnames p.2)) := by
    rw [hls, make_forest_errors, hsplit, List.filterMap_append,
      List.filterMap_cons]
    cases h : stepError (merge_pass ds).selfLongnames o <;> simp [h]
  have hfil_pre :
      (pre.filterMap
          (fun p => stepError (merge_pass ds).selfLongnames p.2)).filter
        (fun e => errLongname e.2 == o.longname) = [] := by
    rw [List.filter_eq_nil_iff]
    intro e he
    obtain ⟨p, hp, hpe⟩ := List.mem_filterMap.mp he
    have hl := stepError_longname _ _ _ hpe
    simp [hl, hprelne p hp]
  have hfil_post :
      (post.filterMap
          (fun p => stepError (merge_pass ds).selfLongnames p.2)).filter
        (fun e => errLongname e.2 == o.longname) = [] := by
    rw [List.filter_eq_nil_iff]
    intro e he
    obtain ⟨p, hp, hpe⟩ := List.mem_filterMap.mp he
    have hl := stepError_longname _ _ _ hpe
    simp [hl, hpostlne p hp]
  refine ⟨?_, ?_, ?_, ?_⟩
  · rw [hls, hsplit, make_forest_append,
      show make_forest (merge_pass ds).selfLongnames ((i, o) :: post)
          (make_forest (merge_pass ds).selfLongnames pre ⟨[], [], []⟩) =
        make_forest (merge_pass ds).selfLongnames post
          (linkStep (merge_pass ds).selfLongnames
            (make_forest (merge_pass ds).selfLongnames pre ⟨[], [], []⟩)
            i o) from rfl]
    rw [make_forest_parent_other _ post _ i hpostne]
    rw [linkStep_parent_unresolved _ _ i o m hmo hnone]
    rw [make_forest_parent_other _ pre _ i hprene]
    rfl
  · rw [hdoc]
    exact List.mem_map.mpr ⟨(i, o), hmem, rfl⟩
  · intro hu
    rw [herr, List.filter_append, List.filter_append, hfil_pre, hfil_post,
      stepError_unresolved _ o m hmo hnone hu]
    by_cases hm : m = "<anonymous>" <;> simp [hm, errLongname]
  · intro hu
    rw [herr, List.filter_append, List.filter_append, hfil_pre, hfil_post,
      stepError_undoc _ o m hmo hnone hu]
    simp

/-- A documented doclet whose `memberof` resolves to nothing. -/
def exOrphan : Doclet :=
  ⟨"function", "f", "mod.f", some "ghost", "doc", "c", false,
    some ⟨"src", "f.js", 3⟩⟩

theorem C3_unresolved_memberof_witness :
    ((0, exOrphan) ∈ (merge_pass [exOrphan]).merged)
    ∧ exOrphan.memberof = some "ghost"
    ∧ alookup (merge_pass [exOrphan]).selfLongnames "ghost" = none
    ∧ alookup (merge_doclets [exOrphan]).2.2.parentOf 0 = none
    ∧ (merge_doclets [exOrphan]).2.2.errors.filter
        (fun e => errLongname e.2 == exOrphan.longname) =
      [(("src/f.js", 3), ErrMsg.couldNotLink "mod.f" "ghost")] := by
  have h := C3_unresolved_memberof [exOrphan] 0 exOrphan "ghost"
    (by decide) rfl (by decide)
  refine ⟨by decide, rfl, by decide, h.1, ?_⟩
  have h3 := h.2.2.1 rfl
  simpa [exOrphan, get_source_line, pathJoin, strHas, listHas, listLeads]
    using h3

/-- A class-kinded doclet named `x`. -/
def exClassX : Doclet := ⟨"class", "x", "x", none, "", "c", false, none⟩

/-- A function-kinded doclet named `x`. -/
def exFuncX : Doclet := ⟨"function", "x", "x", none, "", "c", false, none⟩

/-- A file-kinded doclet named `y` (no `xref_table` entry for `file`). -/
def exFileY : Doclet := ⟨"file", "y", "y", none, "", "c", false, none⟩

/-- C4 counterexample: with the name `x` bound to a class in the longname
index and to a function in the name index, `xref` emits the class role —
the longname index, not the name index, takes precedence; and a matched
doclet whose kind has no cross-reference category makes `xref` raise
`KeyError` (modelled `none`) instead of returning the name unchanged. -/
theorem C4_xref_counterexample :
    xref [("x", exClassX)] [("x", exFuncX)] "x" = some ":js:class:`x`"
    ∧ (some (":js:class:`x`" : String)) ≠ some ":js:func:`x`"
    ∧ xref [("y", exFileY)] [] "y" = none :=
  ⟨by decide, by decide, by decide⟩

/-- C4 amended: `xref` consults the longname index with precedence over
the name index (the name index is ignored whenever the longname index
matches); when neither index yields a match the name is returned
unchanged; a match whose kind has no entry in `xref_table` raises
`KeyError` instead of degrading to the plain name. -/
theorem C4_xref_amended :
    (∀ (ln ns : List (String × Doclet)) (nm : String) (d : Doclet),
      alookup ln nm = some d → xref ln ns nm = xref ln [] nm)
    ∧ (∀ (ln ns : List (String × Doclet)) (nm : String),
      alookup ln nm = none → alookup ns nm = none → xref ln ns nm = some nm)
    ∧ xref [("y", exFileY)] [] "y" = none := by
  refine ⟨?_, ?_, by decide⟩
  · intro ln ns nm d h
    simp [xref, h]
  · intro ln ns nm h1 h2
    simp [xref, h1, h2, alookup]

theorem C4_xref_amended_witness :
    (alookup [("x", exClassX)] "x" = some exClassX
      ∧ xref [("x", exClassX)] [("x", exFuncX)] "x" =
          xref [("x", exClassX)] [] "x")
    ∧ (alookup ([] : List (String × Doclet)) "z" = none
      ∧ xref [] [] "z" = some "z") :=
  ⟨⟨by decide, C4_xref_amended.1 [("x", exClassX)] [("x", exFuncX)] "x"
      exClassX (by decide)⟩,
   ⟨rfl, C4_xref_amended.2.1 [] [] "z" rfl rfl⟩⟩

theorem load_structure_second (files : String → List Doclet)
    (path : String) (cs : CacheState) :
    load_structure files path (load_structure files path cs).2 =
      ((load_structure files path cs).1,
        (load_structure files path cs).2) := by
  cases h : alookup cs.cache path with
  | some t => simp [load_structure, h]
  | none => simp [load_structure, h, alookup_append, alookup]

/-- C5: the structure cache is populated at most once per path: a second
request for the same path returns the very same triple and leaves the
cache state untouched (hence no second file read); one request performs at
most one read; and an entry, once stored, is never invalidated or
refreshed by later requests. -/
theorem C5_structure_cache (files : String → List Doclet) (path : String)
    (cs : CacheState) :
    load_structure files path (load_structure files path cs).2 =
      ((load_structure files path cs).1, (load_structure files path cs).2)
    ∧ (load_structure files path cs).2.readCount ≤ cs.readCount + 1
    ∧ ∀ (p : String) (t : Triple), alookup cs.cache p = some t →
        alookup (load_structure files path cs).2.cache p = some t := by
  refine ⟨load_structure_second files path cs, ?_, ?_⟩
  · cases h : alookup cs.cache path with
    | some t => simp [load_structure, h]
    | none => simp [load_structure, h]
  · intro p t' ht
    cases h : alookup cs.cache path with
    | some t => simp [load_structure, h, ht]
    | none => simp [load_structure, h, alookup_append, ht]

theorem C5_structure_cache_witness :
    (alookup [("q", (⟨[], [], []⟩ : Triple))] "q" = some ⟨[], [], []⟩)
    ∧ alookup (load_structure (fun _ => []) "p"
        ⟨[("q", ⟨[], [], []⟩)], 1⟩).2.cache "q" = some ⟨[], [], []⟩ :=
  ⟨by decide,
    (C5_structure_cache (fun _ => []) "p" ⟨[("q", ⟨[], [], []⟩)], 1⟩).2.2
      "q" ⟨[], [], []⟩ (by decide)⟩

theorem lex_cons_iff {α : Type} [LT α] {a b : α} {as bs : List α} :
    List.Lex (· < ·) (a :: as) (b :: bs) ↔
      a < b ∨ (a = b ∧ List.Lex (· < ·) as bs) := by
  constructor
  · intro h
    cases h with
    | cons h => exact Or.inr ⟨rfl, h⟩
    | rel h => exact Or.inl h
  · rintro (h | ⟨rfl, h⟩)
    · exact List.Lex.rel h
    · exact List.Lex.cons h

theorem charListLe_iff : ∀ (x y : List Char),
    charListLe x y = true ↔ ¬ List.Lex (· < ·) y x := by
  intro x
  induction x with
  | nil =>
    intro y
    constructor
    · intro _ h; cases h
    · intro _; rfl
  | cons a as ih =>
    intro y
    cases y with
    | nil =>
      constructor
      · intro h; cases h
      · intro h; exact (h List.Lex.nil).elim
    | cons b bs =>
      by_cases hab : a = b
      · subst hab
        rw [show charListLe (a :: as) (a :: bs) = charListLe as bs from by
          simp [charListLe]]
        rw [ih bs]
        constructor
        · intro h hlex
          rcases lex_cons_iff.mp hlex with h1 | ⟨_, h2⟩
          · exact absurd h1 (lt_irrefl a)
          · exact h h2
        · intro h hlex
          exact h (lex_cons_iff.mpr (Or.inr ⟨rfl, hlex⟩))
      · rw [show charListLe (a :: as) (b :: bs) = decide (a < b) from by
          simp [charListLe, hab]]
        constructor
        · intro h hlex
          have hb : a < b := of_decide_eq_true h
          rcases lex_cons_iff.mp hlex with h1 | ⟨he, _⟩
          · exact absurd hb (lt_asymm h1)
          · exact hab he.symm
        · intro h
          rcases lt_trichotomy a b with h1 | h1 | h1
          · exact decide_eq_true h1
          · exact absurd h1 hab
          · exact absurd (lex_cons_iff.mpr (Or.inl h1)) h

theorem strLe_iff (a b : String) : strLe a b = true ↔ a ≤ b := by
  rw [strLe, charListLe_iff, String.le_iff_toList_le]
  show ¬ b.toList < a.toList ↔ a.toList ≤ b.toList
  exact not_lt

theorem insertByLongname_perm (d : Doclet) :
    ∀ l : List Doclet, List.Perm (insertByLongname d l) (d :: l) := by
  intro l
  induction l with
  | nil => exact List.Perm.refl _
  | cons e rest ih =>
    by_cases h : strLe d.longname e.longname
    · rw [show insertByLongname d (e :: rest) = d :: e :: rest from by
        simp [insertByLongname, h]]
    · rw [show insertByLongname d (e :: rest) =
          e :: insertByLongname d rest from by simp [insertByLongname, h]]
      exact List.Perm.trans (List.Perm.cons e ih) (List.Perm.swap d e rest)

theorem sortByLongname_perm :
    ∀ l : List Doclet, List.Perm (sortByLongname l) l := by
  intro l
  induction l with
  | nil => exact List.Perm.refl _
  | cons d rest ih =>
    exact List.Perm.trans (insertByLongname_perm d _) (List.Perm.cons d ih)

theorem insertByLongname_sorted (d : Doclet) :
    ∀ l : List Doclet,
    l.Pairwise (fun a b => a.longname ≤ b.longname) →
    (insertByLongname d l).Pairwise (fun a b => a.longname ≤ b.longname) := by
  intro l
  induction l with
  | nil => intro _; simp [insertByLongname]
  | cons e rest ih =>
    intro hs
    obtain ⟨he, hrest⟩ := List.pairwise_cons.mp hs
    by_cases h : strLe d.longname e.longname
    · rw [show insertByLongname d (e :: rest) = d :: e :: rest from by
        simp [insertByLongname, h]]
      have hde : d.longname ≤ e.longname := (strLe_iff _ _).mp h
      refine List.pairwise_cons.mpr ⟨?_, hs⟩
      intro x hx
      rcases List.mem_cons.mp hx with rfl | hx
      · exact hde
      · exact le_trans hde (he x hx)
    · rw [show insertByLongname d (e :: rest) =
          e :: insertByLongname d rest from by simp [insertByLongname, h]]
      have hed : e.longname ≤ d.longname := by
        have hn : ¬ d.longname ≤ e.longname :=
          fun hle => h ((strLe_iff _ _).mpr hle)
        exact le_of_not_le hn
      refine List.pairwise_cons.mpr ⟨?_, ih hrest⟩
      intro x hx
      have hx' : x = d ∨ x ∈ rest := by
        have hm := (insertByLongname_perm d rest).mem_iff.mp hx
        simpa using hm
      rcases hx' with rfl | hx'
      · exact hed
      · exact he x hx'

theorem sortByLongname_sorted : ∀ l : List Doclet,
    (sortByLongname l).Pairwise (fun a b => a.longname ≤ b.longname) := by
  intro l
  induction l with
  | nil => simp [sortByLongname]
  | cons d rest ih => exact insertByLongname_sorted d _ ih

theorem emitLoop_emitted : ∀ (ds : List Doclet) (st : RunState),
    (emitLoop st ds).emitted = st.emitted ++ ds.map (fun d => d.longname) := by
  intro ds
  induction ds with
  | nil => intro st; simp [emitLoop]
  | cons d rest ih =>
    intro st
    rw [show emitLoop st (d :: rest) =
      emitLoop ⟨st.visited ++ [d.longname], st.emitted ++ [d.longname]⟩ rest
      from rfl]
    rw [ih]
    simp

/-- C7: within one pattern argument the rendered doclets appear in
lexicographically nondecreasing longname order, whatever the input order;
in particular, of two matching doclets named `"b"` and `"a"`, the one
named `"a"` is rendered first. -/
theorem C7_sorted_output :
    (∀ (doclets : List Doclet) (objtype : String) (v : List String)
      (pat : String → Bool),
      ((runPattern doclets objtype ⟨v, []⟩ pat).emitted).Pairwise (· ≤ ·))
    ∧ (run_patterns
        [⟨"module", "b", "b", none, "", "c", false, none⟩,
         ⟨"module", "a", "a", none, "", "c", false, none⟩]
        "module" [fun _ => true]).emitted = ["a", "b"] := by
  refine ⟨?_, by decide⟩
  intro doclets objtype v pat
  rw [runPattern, emitLoop_emitted]
  simp only [List.nil_append]
  exact List.Pairwise.map _ (fun a b h => h) (sortByLongname_sorted _)

theorem emitLoop_inv : ∀ (ds : List Doclet) (st : RunState),
    (ds.map (fun d => d.longname)).Nodup →
    (∀ d ∈ ds, d.longname ∉ st.visited) →
    st.emitted.Nodup → (∀ l ∈ st.emitted, l ∈ st.visited) →
    (emitLoop st ds).emitted.Nodup ∧
      (∀ l ∈ (emitLoop st ds).emitted, l ∈ (emitLoop st ds).visited) := by
  intro ds
  induction ds with
  | nil => intro st _ _ h1 h2; exact ⟨h1, h2⟩
  | cons d rest ih =>
    intro st hnd hvis h1 h2
    rw [show emitLoop st (d :: rest) =
      emitLoop ⟨st.visited ++ [d.longname], st.emitted ++ [d.longname]⟩ rest
      from rfl]
    have hdln : d.longname ∉ rest.map (fun e => e.longname) :=
      (List.nodup_cons.mp hnd).1
    apply ih
    · exact (List.nodup_cons.mp hnd).2
    · intro e he
      simp only [List.mem_append, List.mem_singleton]
      rintro (hv | heq)
      · exact hvis e (List.mem_cons_of_mem d he) hv
      · exact hdln (heq ▸ List.mem_map_of_mem _ he)
    · have hne : d.longname ∉ st.emitted :=
        fun hm => hvis d (List.mem_cons_self d rest) (h2 _ hm)
      simp [List.nodup_append, h1, hne]
    · intro l hl
      simp only [List.mem_append, List.mem_singleton] at hl ⊢
      rcases hl with hl | hl
      · exact Or.inl (h2 l hl)
      · exact Or.inr hl

theorem runPattern_inv (doclets : List Doclet) (objtype : String)
    (pat : String → Bool) (st : RunState)
    (hnd : (doclets.map (fun d => d.longname)).Nodup)
    (h1 : st.emitted.Nodup) (h2 : ∀ l ∈ st.emitted, l ∈ st.visited) :
    (runPattern doclets objtype st pat).emitted.Nodup ∧
      (∀ l ∈ (runPattern doclets objtype st pat).emitted,
        l ∈ (runPattern doclets objtype st pat).visited) := by
  apply emitLoop_inv
  · have hfn : ((doclets.filter
        (fun d => d.kind == objtype && pat d.longname
          && !(st.visited.contains d.longname))).map
        (fun d => d.longname)).Nodup :=
      hnd.sublist ((List.filter_sublist doclets).map _)
    exact ((sortByLongname_perm _).map
      (fun d => d.longname)).nodup_iff.mpr hfn
  · intro d hd
    have hd' := (sortByLongname_perm _).mem_iff.mp hd
    have hc := List.of_mem_filter hd'
    simp only [Bool.and_eq_true, Bool.not_eq_true'] at hc
    have hnv : d.longname ∉ st.visited := by simpa using hc.2
    exact hnv
  · exact h1
  · exact h2

theorem run_patterns_nodup (doclets : List Doclet) (objtype : String)
    (hnd : (doclets.map (fun d => d.longname)).Nodup) :
    ∀ (pats : List (String → Bool)) (st : RunState),
    st.emitted.Nodup → (∀ l ∈ st.emitted, l ∈ st.visited) →
    (pats.foldl (runPattern doclets objtype) st).emitted.Nodup := by
  intro pats
  induction pats with
  | nil => intro st h1 _; exact h1
  | cons pat rest ih =>
    intro st h1 h2
    have h := runPattern_inv doclets objtype pat st hnd h1 h2
    exact ih _ h.1 h.2

/-- C6: one visited-longname set is threaded across all pattern arguments
of a directive invocation, so no doclet longname is ever rendered twice
(the emitted sequence has no duplicates whenever the doclet list has
unique longnames, as a merged list does); in particular with the patterns
`"foo"` and `"foo.*"` (both modelled by their match behavior, a substring
test for `"foo"`) the doclet named exactly `foo` is emitted once. -/
theorem C6_visited_no_duplicates :
    (∀ (doclets : List Doclet) (objtype : String)
      (pats : List (String → Bool)),
      (doclets.map (fun d => d.longname)).Nodup →
      (run_patterns doclets objtype pats).emitted.Nodup)
    ∧ (run_patterns [⟨"module", "foo", "foo", none, "", "c", false, none⟩]
        "module" [fun s => strHas "foo" s, fun s => strHas "foo" s]).emitted
        = ["foo"] := by
  refine ⟨?_, by decide⟩
  intro doclets objtype pats hnd
  exact run_patterns_nodup doclets objtype hnd pats ⟨[], []⟩
    (by simp) (by simp)

theorem C6_visited_no_duplicates_witness :
    ((([⟨"module", "foo", "foo", none, "", "c", false, none⟩,
        ⟨"module", "foo.bar", "foo.bar", none, "", "c", false, none⟩] :
        List Doclet).map (fun d => d.longname)).Nodup)
    ∧ (run_patterns
        [⟨"module", "foo", "foo", none, "", "c", false, none⟩,
         ⟨"module", "foo.bar", "foo.bar", none, "", "c", false, none⟩]
        "module" [fun s => strHas "foo" s, fun s => strHas "foo" s]
        ).emitted.Nodup :=
  ⟨by decide,
    C6_visited_no_duplicates.1
      [⟨"module", "foo", "foo", none, "", "c", false, none⟩,
       ⟨"module", "foo.bar", "foo.bar", none, "", "c", false, none⟩]
      "module" [fun s => strHas "foo" s, fun s => strHas "foo" s]
      (by decide)⟩

/-- C8 counterexample: for a parameter doclet whose type names are
`["Array", "null"]` the rendered field line is `:param Array|null x: desc`
— it nowhere contains the claimed text with a backslash-escaped pipe,
because `bs` doubles backslashes and leaves pipes untouched. -/
theorem C8_pipe_escape_counterexample :
    JSArgument_run ⟨"x", "desc", ["Array", "null"]⟩ =
      ":param Array|null x: desc"
    ∧ listHas "Array\\|null".toList
        (JSArgument_run ⟨"x", "desc", ["Array", "null"]⟩).toList = false :=
  ⟨by decide, by decide⟩

/-- C8 amended: the rendered parameter field contains the type names
pipe-joined with the pipe left unescaped (`Array|null`); the escaping step
`bs` doubles backslashes only. -/
theorem C8_pipe_join_amended :
    get_types ["Array", "null"] = "Array|null"
    ∧ listHas "Array|null".toList
        (JSArgument_run ⟨"x", "desc", ["Array", "null"]⟩).toList = true
    ∧ bs "a\\b" = "a\\\\b"
    ∧ bs "Array|null" = "Array|null" :=
  ⟨by decide, by decide, by decide, by decide⟩

/-- A class doclet named `MyClass`, known to the longname index. -/
def exClassMy : Doclet :=
  ⟨"class", "MyClass", "MyClass", none, "", "c", false, none⟩

/-- C9: a "see" link containing the protocol separator `://` is rendered
verbatim, untouched by cross-reference resolution; a bare-name link that
matches a known class doclet is rendered as a cross-reference token for
that class. -/
theorem C9_see_link (longnames names : List (String × Doclet))
    (link desc : String) (h : strHas "://" link = true) :
    JSSee_run longnames names link desc =
      some ("See: " ++ link ++ " " ++ normalize_space desc)
    ∧ JSSee_run [("MyClass", exClassMy)] [] "MyClass" "the class" =
      some "See: :js:class:`MyClass` the class" := by
  refine ⟨?_, by decide⟩
  simp [JSSee_run, h]

theorem C9_see_link_witness :
    strHas "://" "https://example.com/x" = true
    ∧ JSSee_run [] [] "https://example.com/x" "a link" =
        some "See: https://example.com/x a link" :=
  ⟨by decide,
    (C9_see_link [] [] "https://example.com/x" "a link" (by decide)).1⟩

/-- C10: `merge_doclets` populates the instance attributes `self.names`
and `self.longnames` (for nonempty input the longname index ends up
nonempty) but returns the never-written locals `names` and `longnames`, so
the triple's second and third components are always empty; that triple is
what the cache stores, so after the cache read-back the directive's lookup
indexes are empty regardless of the input records, on the first (miss) and
second (hit) load alike. -/
theorem C10_returned_indexes_empty (ds : List Doclet)
    (files : String → List Doclet) (path : String) :
    (merge_doclets ds).1.names = []
    ∧ (merge_doclets ds).1.longnames = []
    ∧ (ds ≠ [] → (merge_doclets ds).2.1.selfLongnames ≠ [])
    ∧ (run_load files path ⟨[], 0⟩).1.names = []
    ∧ (run_load files path ⟨[], 0⟩).1.longnames = []
    ∧ (run_load files path (run_load files path ⟨[], 0⟩).2).1.names = []
    ∧ (run_load files path
        (run_load files path ⟨[], 0⟩).2).1.longnames = [] := by
  have hsecond := load_structure_second files path ⟨[], 0⟩
  refine ⟨rfl, rfl, ?_, rfl, rfl, ?_, ?_⟩
  · intro hne hemp
    cases ds with
    | nil => exact hne rfl
    | cons d rest =>
      have hl := merge_run_lookup (d :: rest) 0 ⟨[], [], []⟩ d.longname
      have hsome : alookup (merge_pass (d :: rest)).selfLongnames
          d.longname = some 0 := by
        rw [show merge_pass (d :: rest) =
          merge_run 0 ⟨[], [], []⟩ (d :: rest) from rfl, hl]
        simp [alookup, firstIdxFrom]
      rw [show (merge_doclets (d :: rest)).2.1 =
        merge_pass (d :: rest) from rfl] at hemp
      rw [hemp] at hsome
      simp [alookup] at hsome
  · show (load_structure files path
      (load_structure files path ⟨[], 0⟩).2).1.names = []
    rw [hsecond]
    rfl
  · show (load_structure files path
      (load_structure files path ⟨[], 0⟩).2).1.longnames = []
    rw [hsecond]
    rfl

theorem C10_returned_indexes_empty_witness :
    (([exClassX] : List Doclet) ≠ [])
    ∧ (merge_doclets [exClassX]).2.1.selfLongnames ≠ []
    ∧ (run_load (fun _ => [exClassX]) "p" ⟨[], 0⟩).1.longnames = [] :=
  ⟨by decide,
    (C10_returned_indexes_empty [exClassX] (fun _ => [exClassX]) "p").2.2.1
      (by decide),
    (C10_returned_indexes_empty [exClassX]
      (fun _ => [exClassX]) "p").2.2.2.2.1⟩

end Autojsdoc
